import Mathlib

/-
Verification development for the TA-assignment program (optimize.py).

The program assigns teaching assistants to courses in three priority tiers
(PhDs, then MScs, then others).  For each tier it builds a bipartite
min-cost-flow network over the tier population and the courses, hands it to an
external min-cost-max-flow capability, and, when the solver reports an optimal
solution, walks the arcs with positive flow, decrementing the per-course slot
pool (carried across tiers) and the tier-local availability counters.

Shallow embedding notes.
  - Numeric preference costs are modelled as Int.  The generator writes the
    four finite rank costs 0, 25, 50, 100 as integers; the only non-integer
    value it can write is the unwilling sentinel (max int32 / 2 - 1, a
    half-integer), which is modelled exactly over the rationals in the
    CostModel section below (def costs).  All threshold comparisons in the
    network builder are order comparisons, so the Int model is faithful for
    the network-construction and extraction logic.
  - Python list indexing raises IndexError when out of range; the embedded
    builder and tier step return none in exactly those situations, and the
    whole run is an Except value.
  - The external min-cost-max-flow solver is not part of the source; the
    embedding takes it as a function parameter (Solver).  Contract facts about
    it are stated as explicit hypotheses (ValidResult, SolverValid,
    SpecSolverOnEmpty).
-/

/-- Python slice l[a:b] for 0 <= a <= b. -/
def pySlice (l : List α) (a b : Nat) : List α := (l.drop a).take (b - a)

/-- One arc of the flow network, as passed to add_arc_with_capacity_and_unit_cost:
tail node, head node, capacity, unit cost. -/
structure Arc where
  tail : Nat
  head : Nat
  capacity : Int
  unitCost : Int
deriving DecidableEq, Repr

/-- Index pairs (iStudent, iClass) in the order the two nested loops of solve
visit them. -/
def tierPairs (nGroup numClasses : Nat) : List (Nat × Nat) :=
  (List.range nGroup).flatMap (fun i => (List.range numClasses).map (fun j => (i, j)))

/-- Network construction for one tier, from optimize.py lines 95-99.  For each
pair (iStudent, iClass) the code reads both preference slices at index
iStudent * nGroup + iClass (note: the tier size nGroup, not numClasses, is the
stride) and adds a capacity-1 arc from node iStudent to node iClass + nGroup
with the summed cost as unit cost, provided that sum is below 1000.  Python
raises IndexError as soon as one of the reads is out of range; the embedding
returns none exactly when some visited index is out of range. -/
def buildTierArcs (nGroup numClasses : Nat) (sPrefs cPrefs : List Int) :
    Option (List Arc) :=
  if ∀ i < nGroup, ∀ j < numClasses,
      i * nGroup + j < sPrefs.length ∧ i * nGroup + j < cPrefs.length then
    some ((tierPairs nGroup numClasses).filterMap (fun p =>
      let totalCost := sPrefs.getD (p.1 * nGroup + p.2) 0 +
        cPrefs.getD (p.1 * nGroup + p.2) 0
      if totalCost < 1000 then some ⟨p.1, p.2 + nGroup, 1, totalCost⟩ else none))
  else none

/-- Status values of the external min-cost-flow capability. -/
inductive SolveStatus where
  | optimal
  | infeasible
  | unbalanced
  | badResult
deriving DecidableEq, Repr

/-- What the program reads back from the solver object after
solve_max_flow_with_min_cost: the status, the optimal cost, and the flow of
every arc (in arc insertion order). -/
structure SolveResult where
  status : SolveStatus
  cost : Int
  flow : List Int
deriving DecidableEq, Repr

/-- The external solving capability: from the arcs and the node supply vector
(TA nodes first, then course nodes) to a result.  The actual algorithm is
outside the source; runs are parametrised by it. -/
abbrev Solver := List Arc → List Int → SolveResult

/-- One recorded assignment: global TA index (tier offset + local tail),
course index, arc unit cost, from optimize.py lines 113-121. -/
structure Assignment where
  ta : Nat
  course : Nat
  cost : Int
deriving DecidableEq, Repr

/-- Extraction loop of optimize.py lines 110-121: walk the arcs in order; for
each arc with positive flow, decrement the slot pool at head - nGroup,
decrement the tier-local availability at tail, and record the assignment. -/
def extractArcs (nGroup iStart : Nat) :
    List (Arc × Int) → List Int → List Int → List Assignment →
    List Int × List Int × List Assignment
  | [], spots, avail, acc => (spots, avail, acc)
  | q :: rest, spots, avail, acc =>
    if 0 < q.2 then
      extractArcs nGroup iStart rest
        (spots.set (q.1.head - nGroup) (spots.getD (q.1.head - nGroup) 0 - 1))
        (avail.set q.1.tail (avail.getD q.1.tail 0 - 1))
        (acc ++ [⟨iStart + q.1.tail, q.1.head - nGroup, q.1.unitCost⟩])
    else extractArcs nGroup iStart rest spots avail acc

/-- Per-tier outcome: the reported status and the recorded assignments. -/
structure TierResult where
  status : SolveStatus
  assignments : List Assignment
deriving DecidableEq, Repr

/-- Failure mode of the embedded run: a Python IndexError from an out-of-range
list access. -/
inductive RunError where
  | indexError
deriving DecidableEq, Repr

/-- One iteration of the tier loop of solve (optimize.py lines 88-135):
slice the availability and the two preference matrices for the tier, build the
network, set the node supplies (availability on TA nodes, negated slot counts
on course nodes), call the solver, and on an optimal status run the extraction;
on any other status leave the slot pool untouched and record nothing.
Returns none when Python would raise IndexError (preference read, availability
read at line 100, or slot read at line 103 out of range). -/
def tierStep (solver : Solver) (numClasses : Nat) (sPrefs cPrefs : List Int)
    (availFull : List Int) (iStart nGroup : Nat) (spots : List Int) :
    Option (List Int × SolveStatus × List Assignment) :=
  match buildTierArcs nGroup numClasses
      (pySlice sPrefs (iStart * numClasses) ((iStart + nGroup) * numClasses))
      (pySlice cPrefs (iStart * numClasses) ((iStart + nGroup) * numClasses)) with
  | none => none
  | some arcs =>
    let avail := pySlice availFull iStart (iStart + nGroup)
    if nGroup ≤ avail.length ∧ numClasses ≤ spots.length then
      let supplies := avail ++ (spots.take numClasses).map (fun s => -s)
      let res := solver arcs supplies
      if res.status = SolveStatus.optimal then
        let ex := extractArcs nGroup iStart (arcs.zip res.flow) spots avail []
        some (ex.1, res.status, ex.2.2)
      else
        some (spots, res.status, [])
    else none

/-- The tier sequencer: process the tier sizes in order, threading the running
offset iStart and the shared slot pool; an IndexError aborts the whole run,
any solver status merely yields that tier and processing continues. -/
def runTiers (solver : Solver) (numClasses : Nat) (sPrefs cPrefs : List Int)
    (availFull : List Int) :
    List Nat → Nat → List Int → Except RunError (List TierResult × List Int)
  | [], _, spots => .ok ([], spots)
  | nGroup :: rest, iStart, spots =>
    match tierStep solver numClasses sPrefs cPrefs availFull iStart nGroup spots with
    | none => .error .indexError
    | some (spots2, st, asg) =>
      match runTiers solver numClasses sPrefs cPrefs availFull rest
          (iStart + nGroup) spots2 with
      | .error e => .error e
      | .ok (results, finalSpots) => .ok (⟨st, asg⟩ :: results, finalSpots)

/-- The configuration structure read from the pickle: tier sizes, number of
classes, per-course slot counts, per-TA availability, and the two flat
pre-costed preference matrices. -/
structure Config where
  numPhDs : Nat
  numMSCs : Nat
  numOther : Nat
  numClasses : Nat
  spots : List Int
  avail : List Int
  studentPrefs : List Int
  coursePrefs : List Int

/-- Whole run of solve: the three tiers [numPhDs, numMSCs, numOther] in
priority order, starting at offset 0 with the configured slot pool. -/
def solveRun (solver : Solver) (cfg : Config) :
    Except RunError (List TierResult × List Int) :=
  runTiers solver cfg.numClasses cfg.studentPrefs cfg.coursePrefs cfg.avail
    [cfg.numPhDs, cfg.numMSCs, cfg.numOther] 0 cfg.spots

/-- Total flow carried by the arcs selected by a predicate. -/
def flowOn (l : List (Arc × Int)) (pred : Arc → Bool) : Int :=
  ((l.filter (fun q => pred q.1)).map (fun q => q.2)).sum

/-- Contract of the external min-cost-max-flow capability for an optimal
result (spec, FlowSolver adapter): one flow value per arc, each flow between 0
and the arc capacity, the flow leaving a node at most its non-negative supply,
and the flow entering a node at most its non-negative demand. -/
def ValidResult (arcs : List Arc) (supplies : List Int) (res : SolveResult) :
    Prop :=
  res.flow.length = arcs.length ∧
  (∀ q ∈ arcs.zip res.flow, 0 ≤ q.2 ∧ q.2 ≤ q.1.capacity) ∧
  (∀ n < supplies.length,
    flowOn (arcs.zip res.flow) (fun a => a.tail == n) ≤
      max (supplies.getD n 0) 0 ∧
    flowOn (arcs.zip res.flow) (fun a => a.head == n) ≤
      max (-(supplies.getD n 0)) 0)

/-- A solver that honours the contract whenever it reports optimal. -/
def SolverValid (solver : Solver) : Prop :=
  ∀ arcs supplies, (solver arcs supplies).status = SolveStatus.optimal →
    ValidResult arcs supplies (solver arcs supplies)

/-- Number of recorded assignments naming course j. -/
def countCourse (j : Nat) (asg : List Assignment) : Nat :=
  asg.countP (fun a => a.course == j)

/-- Number of recorded assignments naming global TA t. -/
def countTA (t : Nat) (asg : List Assignment) : Nat :=
  asg.countP (fun a => a.ta == t)

/-- All assignments of a run, in tier order. -/
def runAssignments (results : List TierResult) : List Assignment :=
  (results.map TierResult.assignments).flatten

/-- CostModel: the rank-to-cost lookup table of makeRandData (optimize.py
lines 52 and 61), over the rationals because the final entry is the
half-integer np.iinfo(np.int32).max / 2 - 1 (Python true division). -/
def costs : List ℚ := [0, 25, 50, 100, 2147483647 / 2 - 1]

/-- Total number of TAs in a configuration (totTAs in makeRandData). -/
def totTAs (cfg : Config) : Nat := cfg.numPhDs + cfg.numMSCs + cfg.numOther

/-- Size conditions under which every list access of the run is in range: the
flat preference matrices cover all TAs, the availability vector covers all
TAs, the slot vector covers all classes, and every tier is at most as large as
the number of classes (the last condition is forced by the nGroup-strided
preference read of line 97, see the C10 analysis). -/
def WellSized (cfg : Config) : Prop :=
  cfg.numPhDs ≤ cfg.numClasses ∧ cfg.numMSCs ≤ cfg.numClasses ∧
  cfg.numOther ≤ cfg.numClasses ∧
  cfg.studentPrefs.length = totTAs cfg * cfg.numClasses ∧
  cfg.coursePrefs.length = totTAs cfg * cfg.numClasses ∧
  cfg.avail.length = totTAs cfg ∧
  cfg.numClasses ≤ cfg.spots.length

/-- Modelled from the spec: the status behaviour of the external FlowSolver
capability on a network with no arc at all, which is not part of the source
(only the call to solve_max_flow_with_min_cost is).  Per the FlowSolver
adapter contract and Scenario B of the spec, with no arc and some node still
carrying negative supply (an unfilled course demand) the solver reports
Infeasible; when no demand is left (and no supply is negative) it reports
Optimal with zero cost and zero flow. -/
def SpecSolverOnEmpty (solver : Solver) : Prop :=
  ∀ supplies : List Int,
    ((∃ s ∈ supplies, s < 0) →
      (solver [] supplies).status = SolveStatus.infeasible) ∧
    ((∀ s ∈ supplies, 0 ≤ s) →
      solver [] supplies = ⟨SolveStatus.optimal, 0, []⟩)

/-- A solver that reports Infeasible on every network. -/
def solverInf : Solver := fun _ _ => ⟨SolveStatus.infeasible, 0, []⟩

/-- A solver that saturates the single arc of any one-arc network. -/
def oracleOne : Solver := fun arcs _ =>
  match arcs with
  | [a] => ⟨SolveStatus.optimal, a.unitCost, [1]⟩
  | _ => ⟨SolveStatus.infeasible, 0, []⟩

/-- A concrete solver used for the C2 run: it answers the one network that
run builds for the first tier of cfgC2 with the (valid) optimal flow [0, 1]
and reports Infeasible on everything else. -/
def oracleC2 : Solver := fun arcs supplies =>
  if arcs = [⟨0, 4, 1, 0⟩, ⟨1, 2, 1, 0⟩] ∧ supplies = [0, 1, -1, -1, -1] then
    ⟨SolveStatus.optimal, 0, [0, 1]⟩
  else ⟨SolveStatus.infeasible, 0, []⟩

/-- Concrete configuration exhibiting the misindexed preference read: first
tier of 2 TAs over 3 classes.  Under the documented layout (one row of
numClasses costs per student, line 49 of the source) TA 1 and course 0 rate
each other with the sentinel cost 1073741822 (both sides unwilling), while the
pair (TA 0, class 2) and nothing else is mutually most wanted. -/
def cfgC2 : Config :=
  ⟨2, 0, 0, 3, [1, 1, 1], [0, 1],
    [1073741822, 1073741822, 0, 1073741822, 1073741822, 1073741822],
    [1073741822, 1073741822, 0, 1073741822, 1073741822, 1073741822]⟩

/-- Concrete configuration whose first tier is larger than the number of
classes: 2 PhDs, 1 class, all sizes consistent with the documented layout
(2 x 1 preference entries, 2 availabilities, 1 slot count). -/
def cfgC10 : Config := ⟨2, 0, 0, 1, [2], [1, 1], [0, 0], [0, 0]⟩

/-- Concrete configuration with a negative availability entry (second TA),
every size consistent; used to show the run performs no validation. -/
def cfgC5 : Config := ⟨1, 1, 0, 1, [2], [1, -1], [0, 0], [0, 0]⟩

/-- Tiny well-formed configuration: one PhD, one class, one slot, mutual cost
zero. -/
def cfgW : Config := ⟨1, 0, 0, 1, [1], [1], [0], [0]⟩

/-- Concrete contract-honouring solver for cfgW: optimal flow [1] on the one
network the first tier of cfgW builds, Infeasible elsewhere. -/
def oracleW : Solver := fun arcs supplies =>
  if arcs = [⟨0, 1, 1, 0⟩] ∧ supplies = [1, -1] then
    ⟨SolveStatus.optimal, 0, [1]⟩
  else ⟨SolveStatus.infeasible, 0, []⟩

/-- A concrete solver realising the spec behaviour on arc-free networks. -/
def solverEmptyModel : Solver := fun arcs supplies =>
  if arcs = [] then
    if supplies.all (fun s => 0 ≤ s) then ⟨SolveStatus.optimal, 0, []⟩
    else ⟨SolveStatus.infeasible, 0, []⟩
  else ⟨SolveStatus.badResult, 0, []⟩

lemma getD_nonneg (l : List Int) (h : ∀ s ∈ l, 0 ≤ s) (j : Nat) : 0 ≤ l.getD j 0 := by
  rw [List.getD_eq_getElem?_getD]
  rcases Nat.lt_or_ge j l.length with hj | hj
  · rw [List.getElem?_eq_getElem hj]
    exact h _ (List.getElem_mem hj)
  · rw [List.getElem?_eq_none hj]
    exact le_refl 0

lemma mem_nonneg_of_getD (l : List Int) (h : ∀ j, 0 ≤ l.getD j 0) :
    ∀ s ∈ l, 0 ≤ s := by
  intro s hs
  obtain ⟨n, hn, rfl⟩ := List.mem_iff_getElem.1 hs
  have hgd := h n
  rwa [List.getD_eq_getElem?_getD, List.getElem?_eq_getElem hn] at hgd

lemma pySlice_length (l : List α) (a b : Nat) :
    (pySlice l a b).length = min (b - a) (l.length - a) := by
  simp [pySlice]

lemma pySlice_getElem? (l : List α) (a b i : Nat) (h : i < b - a) :
    (pySlice l a b)[i]? = l[a + i]? := by
  simp [pySlice, List.getElem?_take, h, List.getElem?_drop]

lemma pySlice_getD (l : List Int) (a b i : Nat) (h : i < b - a) :
    (pySlice l a b).getD i 0 = l.getD (a + i) 0 := by
  rw [List.getD_eq_getElem?_getD, List.getD_eq_getElem?_getD,
    pySlice_getElem? l a b i h]

lemma mem_tierPairs {p : Nat × Nat} {n m : Nat} :
    p ∈ tierPairs n m ↔ p.1 < n ∧ p.2 < m := by
  cases p with
  | mk i j =>
    simp only [tierPairs, List.mem_flatMap, List.mem_map, List.mem_range]
    constructor
    · rintro ⟨a, ha, b, hb, hab⟩
      cases hab
      exact ⟨ha, hb⟩
    · rintro ⟨hi, hj⟩
      exact ⟨i, hi, j, hj, rfl⟩

lemma buildTierArcs_mem {n m : Nat} {sP cP : List Int} {arcs : List Arc}
    (h : buildTierArcs n m sP cP = some arcs) (a : Arc) :
    a ∈ arcs ↔ ∃ i, ∃ j, i < n ∧ j < m ∧
      sP.getD (i * n + j) 0 + cP.getD (i * n + j) 0 < 1000 ∧
      a = ⟨i, j + n, 1, sP.getD (i * n + j) 0 + cP.getD (i * n + j) 0⟩ := by
  rw [buildTierArcs] at h
  split at h
  · injection h with h
    subst h
    simp only [List.mem_filterMap]
    constructor
    · rintro ⟨p, hp, hfp⟩
      obtain ⟨hp1, hp2⟩ := mem_tierPairs.1 hp
      by_cases hc : sP.getD (p.1 * n + p.2) 0 + cP.getD (p.1 * n + p.2) 0 < 1000
      · rw [if_pos hc] at hfp
        injection hfp with hfp
        exact ⟨p.1, p.2, hp1, hp2, hc, hfp.symm⟩
      · rw [if_neg hc] at hfp
        exact absurd hfp (Option.noConfusion)
    · rintro ⟨i, j, hi, hj, hc, rfl⟩
      refine ⟨(i, j), mem_tierPairs.2 ⟨hi, hj⟩, ?_⟩
      rw [if_pos hc]
  · exact absurd h (Option.noConfusion)

lemma buildTierArcs_shape {n m : Nat} {sP cP : List Int} {arcs : List Arc}
    (h : buildTierArcs n m sP cP = some arcs) :
    ∀ a ∈ arcs, a.tail < n ∧ a.capacity = 1 ∧ ∃ j < m, a.head = j + n := by
  intro a ha
  obtain ⟨i, j, hi, hj, _, rfl⟩ := (buildTierArcs_mem h a).1 ha
  exact ⟨hi, rfl, j, hj, rfl⟩

lemma extractArcs_asg (n s : Nat) (l : List (Arc × Int)) :
    ∀ (spots avail : List Int) (acc : List Assignment),
    (extractArcs n s l spots avail acc).2.2 =
      acc ++ l.filterMap (fun q =>
        if 0 < q.2 then
          some ⟨s + q.1.tail, q.1.head - n, q.1.unitCost⟩
        else none) := by
  induction l with
  | nil => intro spots avail acc; simp [extractArcs]
  | cons q rest ih =>
    intro spots avail acc
    rw [extractArcs, List.filterMap_cons]
    by_cases hq : 0 < q.2
    · rw [if_pos hq, if_pos hq, ih]
      simp
    · rw [if_neg hq, if_neg hq, ih]

lemma extractArcs_spots_length (n s : Nat) (l : List (Arc × Int)) :
    ∀ (spots avail : List Int) (acc : List Assignment),
    ((extractArcs n s l spots avail acc).1).length = spots.length := by
  induction l with
  | nil => intro spots avail acc; simp [extractArcs]
  | cons q rest ih =>
    intro spots avail acc
    rw [extractArcs]
    by_cases hq : 0 < q.2
    · rw [if_pos hq, ih]
      simp
    · rw [if_neg hq, ih]

lemma getD_set (l : List Int) (c : Nat) (v : Int) (j : Nat) (hc : c < l.length) :
    (l.set c v).getD j 0 = if c = j then v else l.getD j 0 := by
  rw [List.getD_eq_getElem?_getD, List.getD_eq_getElem?_getD, List.getElem?_set]
  by_cases h : c = j
  · simp [h, h ▸ hc]
  · simp [h]

lemma extractArcs_spots_getD (n s : Nat) (l : List (Arc × Int)) :
    ∀ (spots avail : List Int) (acc : List Assignment),
    (∀ q ∈ l, 0 < q.2 → q.1.head - n < spots.length) →
    ∀ j, ((extractArcs n s l spots avail acc).1).getD j 0 =
      spots.getD j 0 -
        (l.countP (fun q => decide (0 < q.2) && (q.1.head - n == j)) : Int) := by
  induction l with
  | nil => intro spots avail acc hside j; simp [extractArcs]
  | cons q rest ih =>
    intro spots avail acc hside j
    rw [extractArcs, List.countP_cons]
    by_cases hq : 0 < q.2
    · rw [if_pos hq]
      have hclen : q.1.head - n < spots.length :=
        hside q (List.mem_cons_self q rest) hq
      have hside2 : ∀ q2 ∈ rest, 0 < q2.2 →
          q2.1.head - n < (spots.set (q.1.head - n) (spots.getD (q.1.head - n) 0 - 1)).length := by
        intro q2 hq2 hq2pos
        rw [List.length_set]
        exact hside q2 (List.mem_cons_of_mem q hq2) hq2pos
      rw [ih _ _ _ hside2 j, getD_set _ _ _ _ hclen]
      by_cases hcj : q.1.head - n = j
      · have hb : (decide (0 < q.2) && (q.1.head - n == j)) = true := by
          simp [hq, hcj]
        rw [if_pos hcj, hb, hcj]
        simp only [if_true]
        push_cast
        omega
      · have hb : (decide (0 < q.2) && (q.1.head - n == j)) = false := by
          simp [hcj]
        rw [if_neg hcj, hb]
        simp only [Bool.false_eq_true, if_false]
        push_cast
        omega
    · rw [if_neg hq]
      have hb : (decide (0 < q.2) && (q.1.head - n == j)) = false := by
        simp [hq]
      rw [ih _ _ _ (fun q2 hq2 => hside q2 (List.mem_cons_of_mem q hq2)) j, hb]
      simp only [Bool.false_eq_true, if_false]
      push_cast
      omega

lemma flowOn_cons (q : Arc × Int) (l : List (Arc × Int)) (pred : Arc → Bool) :
    flowOn (q :: l) pred = (if pred q.1 then q.2 else 0) + flowOn l pred := by
  by_cases h : pred q.1
  · simp [flowOn, List.filter_cons, h]
  · simp [flowOn, List.filter_cons, h]

lemma countP_le_flowOn (pred : Arc → Bool) (l : List (Arc × Int)) :
    (∀ q ∈ l, 0 ≤ q.2) →
    (l.countP (fun q => pred q.1 && decide (0 < q.2)) : Int) ≤ flowOn l pred := by
  induction l with
  | nil => intro _; simp [flowOn]
  | cons q rest ih =>
    intro h
    rw [List.countP_cons, flowOn_cons]
    have hrest := ih (fun q2 hq2 => h q2 (List.mem_cons_of_mem q hq2))
    have hq0 : 0 ≤ q.2 := h q (List.mem_cons_self q rest)
    by_cases hp : pred q.1
    · by_cases hq : 0 < q.2
      · have hb : (pred q.1 && decide (0 < q.2)) = true := by simp [hp, hq]
        rw [hb, if_pos hp]
        push_cast
        omega
      · have hb : (pred q.1 && decide (0 < q.2)) = false := by simp [hq]
        rw [hb, if_pos hp]
        push_cast
        omega
    · have hb : (pred q.1 && decide (0 < q.2)) = false := by simp [hp]
      rw [hb, if_neg hp]
      push_cast
      omega

lemma take_map_neg_getD (spots : List Int) (m j : Nat) (hj : j < m)
    (hm : m ≤ spots.length) :
    ((spots.take m).map (fun s => -s)).getD j 0 = -(spots.getD j 0) := by
  have hjl : j < spots.length := lt_of_lt_of_le hj hm
  rw [List.getD_eq_getElem?_getD, List.getD_eq_getElem?_getD,
    List.getElem?_map, List.getElem?_take, if_pos hj,
    List.getElem?_eq_getElem hjl]
  rfl

lemma tierStep_spec (solver : Solver) (numClasses : Nat)
    (sPrefs cPrefs availFull : List Int) (iStart nGroup : Nat)
    (spots spots2 : List Int) (st : SolveStatus) (asg : List Assignment)
    (hval : SolverValid solver)
    (hsp : ∀ s ∈ spots, 0 ≤ s)
    (h : tierStep solver numClasses sPrefs cPrefs availFull iStart nGroup spots =
      some (spots2, st, asg)) :
    spots2.length = spots.length ∧
    (∀ j, (countCourse j asg : Int) = spots.getD j 0 - spots2.getD j 0) ∧
    (∀ j, 0 ≤ spots2.getD j 0 ∧ spots2.getD j 0 ≤ spots.getD j 0) ∧
    (∀ a ∈ asg, iStart ≤ a.ta ∧ a.ta < iStart + nGroup) ∧
    (∀ i < nGroup, (countTA (iStart + i) asg : Int) ≤
      max (availFull.getD (iStart + i) 0) 0) := by
  rw [tierStep] at h
  rcases harcs : buildTierArcs nGroup numClasses
      (pySlice sPrefs (iStart * numClasses) ((iStart + nGroup) * numClasses))
      (pySlice cPrefs (iStart * numClasses) ((iStart + nGroup) * numClasses))
    with _ | arcs
  · rw [harcs] at h
    exact absurd h Option.noConfusion
  rw [harcs] at h
  simp only [] at h
  split at h
  case isTrue hcond =>
    set avail := pySlice availFull iStart (iStart + nGroup) with havdef
    set supplies := avail ++ (spots.take numClasses).map (fun s => -s) with hsupdef
    set res := solver arcs supplies with hresdef
    obtain ⟨havlen0, hspl⟩ := hcond
    have hav_len : avail.length = nGroup := by
      have h0 := pySlice_length availFull iStart (iStart + nGroup)
      rw [← havdef] at h0
      omega
    have hsuplen : supplies.length = nGroup + numClasses := by
      rw [hsupdef]
      simp [hav_len, List.length_take]
      omega
    have hsup_ta : ∀ i < nGroup, supplies.getD i 0 = availFull.getD (iStart + i) 0 := by
      intro i hi
      rw [hsupdef, List.getD_append _ _ _ i (by rw [hav_len]; exact hi), havdef,
        pySlice_getD availFull iStart (iStart + nGroup) i (by omega)]
    have hsup_course : ∀ j < numClasses,
        supplies.getD (j + nGroup) 0 = -(spots.getD j 0) := by
      intro j hj
      rw [hsupdef, List.getD_append_right _ _ _ (j + nGroup) (by rw [hav_len]; omega),
        hav_len, Nat.add_sub_cancel, take_map_neg_getD spots numClasses j hj hspl]
    split at h
    case isTrue hopt =>
      simp only [Option.some.injEq, Prod.mk.injEq] at h
      obtain ⟨h1, h2, h3⟩ := h
      subst h1
      subst h2
      subst h3
      have hvr : ValidResult arcs supplies res := hval arcs supplies hopt
      obtain ⟨hflen, hcap, hnode⟩ := hvr
      have hshape := buildTierArcs_shape harcs
      have hpos : ∀ q ∈ arcs.zip res.flow, 0 ≤ q.2 := fun q hq => (hcap q hq).1
      have hside : ∀ q ∈ arcs.zip res.flow, 0 < q.2 → q.1.head - nGroup < spots.length := by
        intro q hq _
        obtain ⟨_, _, j, hj, hhead⟩ := hshape q.1 (List.of_mem_zip hq).1
        rw [hhead]
        omega
      have hset := extractArcs_spots_getD nGroup iStart (arcs.zip res.flow) spots avail [] hside
      have hasg := extractArcs_asg nGroup iStart (arcs.zip res.flow) spots avail []
      rw [List.nil_append] at hasg
      have hcountc : ∀ j, countCourse j
          (extractArcs nGroup iStart (arcs.zip res.flow) spots avail []).2.2 =
          (arcs.zip res.flow).countP
            (fun q => decide (0 < q.2) && (q.1.head - nGroup == j)) := by
        intro j
        rw [countCourse, hasg, List.countP_filterMap]
        apply List.countP_congr
        intro q _
        by_cases hq : 0 < q.2
        · simp [hq]
        · simp [hq]
      have hcountt : ∀ i, countTA (iStart + i)
          (extractArcs nGroup iStart (arcs.zip res.flow) spots avail []).2.2 =
          (arcs.zip res.flow).countP
            (fun q => (q.1.tail == i) && decide (0 < q.2)) := by
        intro i
        rw [countTA, hasg, List.countP_filterMap]
        apply List.countP_congr
        intro q _
        by_cases hq : 0 < q.2
        · simp [hq, Bool.and_comm]
        · simp [hq]
      have hczero : ∀ j, numClasses ≤ j →
          (arcs.zip res.flow).countP
            (fun q => decide (0 < q.2) && (q.1.head - nGroup == j)) = 0 := by
        intro j hj
        rw [List.countP_eq_zero]
        intro q hq
        obtain ⟨_, _, j2, hj2, hhead⟩ := hshape q.1 (List.of_mem_zip hq).1
        simp only [hhead, Nat.add_sub_cancel, Bool.and_eq_true, beq_iff_eq,
          decide_eq_true_eq]
        omega
      have hcb : ∀ j < numClasses,
          ((arcs.zip res.flow).countP
            (fun q => decide (0 < q.2) && (q.1.head - nGroup == j)) : Int) ≤
            spots.getD j 0 := by
        intro j hj
        have he : (arcs.zip res.flow).countP
            (fun q => decide (0 < q.2) && (q.1.head - nGroup == j)) =
            (arcs.zip res.flow).countP
              (fun q => (q.1.head == j + nGroup) && decide (0 < q.2)) := by
          apply List.countP_congr
          intro q hq
          obtain ⟨_, _, j2, hj2, hhead⟩ := hshape q.1 (List.of_mem_zip hq).1
          simp only [hhead, Nat.add_sub_cancel, Bool.and_eq_true, beq_iff_eq,
            decide_eq_true_eq]
          omega
        rw [he]
        have h2 := countP_le_flowOn (fun a => a.head == j + nGroup) (arcs.zip res.flow) hpos
        have h3 := (hnode (j + nGroup) (by rw [hsuplen]; omega)).2
        rw [hsup_course j hj, neg_neg] at h3
        have h4 : 0 ≤ spots.getD j 0 := getD_nonneg spots hsp j
        rw [max_eq_left h4] at h3
        exact le_trans h2 h3
      refine ⟨extractArcs_spots_length nGroup iStart _ spots avail [], ?_, ?_, ?_, ?_⟩
      · intro j
        rw [hcountc j, hset j]
        ring
      · intro j
        rw [hset j]
        rcases Nat.lt_or_ge j numClasses with hj | hj
        · have := hcb j hj
          have h4 : 0 ≤ spots.getD j 0 := getD_nonneg spots hsp j
          constructor
          · omega
          · have : (0 : Int) ≤ ((arcs.zip res.flow).countP
              (fun q => decide (0 < q.2) && (q.1.head - nGroup == j)) : Int) :=
              Int.ofNat_nonneg _
            omega
        · rw [hczero j hj]
          have h4 : 0 ≤ spots.getD j 0 := getD_nonneg spots hsp j
          push_cast
          constructor
          · omega
          · omega
      · intro a ha
        rw [hasg] at ha
        obtain ⟨q, hq, hfq⟩ := List.mem_filterMap.1 ha
        by_cases hqpos : 0 < q.2
        · rw [if_pos hqpos] at hfq
          injection hfq with hfq
          subst hfq
          have htail := (hshape q.1 (List.of_mem_zip hq).1).1
          simp only []
          omega
        · rw [if_neg hqpos] at hfq
          exact absurd hfq Option.noConfusion
      · intro i hi
        rw [hcountt i]
        have h2 := countP_le_flowOn (fun a => a.tail == i) (arcs.zip res.flow) hpos
        have h3 := (hnode i (by rw [hsuplen]; omega)).1
        rw [hsup_ta i hi] at h3
        exact le_trans h2 h3
    case isFalse hopt =>
      simp only [Option.some.injEq, Prod.mk.injEq] at h
      obtain ⟨h1, h2, h3⟩ := h
      subst h1
      subst h2
      subst h3
      refine ⟨rfl, ?_, ?_, by simp [countTA], ?_⟩
      · intro j
        simp [countCourse]
      · intro j
        exact ⟨getD_nonneg spots hsp j, le_refl _⟩
      · intro i _
        simp [countTA]
  case isFalse hcond =>
    exact absurd h Option.noConfusion

lemma tierStep_length (solver : Solver) (numClasses : Nat)
    (sPrefs cPrefs availFull : List Int) (iStart nGroup : Nat)
    (spots : List Int) (out : List Int × SolveStatus × List Assignment)
    (h : tierStep solver numClasses sPrefs cPrefs availFull iStart nGroup spots =
      some out) :
    out.1.length = spots.length := by
  rw [tierStep] at h
  rcases harcs : buildTierArcs nGroup numClasses
      (pySlice sPrefs (iStart * numClasses) ((iStart + nGroup) * numClasses))
      (pySlice cPrefs (iStart * numClasses) ((iStart + nGroup) * numClasses))
    with _ | arcs
  · rw [harcs] at h
    exact absurd h Option.noConfusion
  rw [harcs] at h
  simp only [] at h
  split at h
  case isTrue hcond =>
    split at h
    case isTrue hopt =>
      injection h with h
      subst h
      exact extractArcs_spots_length nGroup iStart _ spots _ []
    case isFalse hopt =>
      injection h with h
      subst h
      rfl
  case isFalse hcond =>
    exact absurd h Option.noConfusion

lemma tierStep_nonopt (solver : Solver) (numClasses : Nat)
    (sPrefs cPrefs availFull : List Int) (iStart nGroup : Nat)
    (spots spots2 : List Int) (st : SolveStatus) (asg : List Assignment)
    (h : tierStep solver numClasses sPrefs cPrefs availFull iStart nGroup spots =
      some (spots2, st, asg))
    (hst : st ≠ SolveStatus.optimal) :
    spots2 = spots ∧ asg = [] := by
  rw [tierStep] at h
  rcases harcs : buildTierArcs nGroup numClasses
      (pySlice sPrefs (iStart * numClasses) ((iStart + nGroup) * numClasses))
      (pySlice cPrefs (iStart * numClasses) ((iStart + nGroup) * numClasses))
    with _ | arcs
  · rw [harcs] at h
    exact absurd h Option.noConfusion
  rw [harcs] at h
  simp only [] at h
  split at h
  case isTrue hcond =>
    split at h
    case isTrue hopt =>
      simp only [Option.some.injEq, Prod.mk.injEq] at h
      exact absurd (h.2.1 ▸ hopt) hst
    case isFalse hopt =>
      simp only [Option.some.injEq, Prod.mk.injEq] at h
      exact ⟨h.1.symm, h.2.2.symm⟩
  case isFalse hcond =>
    exact absurd h Option.noConfusion

lemma runAssignments_cons (st : SolveStatus) (asg : List Assignment)
    (rest : List TierResult) :
    runAssignments (⟨st, asg⟩ :: rest) = asg ++ runAssignments rest := by
  simp [runAssignments]

lemma runTiers_spec (solver : Solver) (numClasses : Nat)
    (sPrefs cPrefs availFull : List Int) (hval : SolverValid solver) :
    ∀ (tiers : List Nat) (iStart : Nat) (spots : List Int)
      (results : List TierResult) (finalSpots : List Int),
    (∀ s ∈ spots, 0 ≤ s) →
    runTiers solver numClasses sPrefs cPrefs availFull tiers iStart spots =
      .ok (results, finalSpots) →
    finalSpots.length = spots.length ∧
    (∀ j, (countCourse j (runAssignments results) : Int) =
      spots.getD j 0 - finalSpots.getD j 0) ∧
    (∀ j, 0 ≤ finalSpots.getD j 0 ∧ finalSpots.getD j 0 ≤ spots.getD j 0) ∧
    (∀ a ∈ runAssignments results, iStart ≤ a.ta) ∧
    (∀ t, (countTA t (runAssignments results) : Int) ≤
      max (availFull.getD t 0) 0) := by
  intro tiers
  induction tiers with
  | nil =>
    intro iStart spots results finalSpots hsp h
    rw [runTiers] at h
    simp only [Except.ok.injEq, Prod.mk.injEq] at h
    obtain ⟨h1, h2⟩ := h
    subst h1
    subst h2
    refine ⟨rfl, ?_, ?_, ?_, ?_⟩
    · intro j
      simp [runAssignments, countCourse]
    · intro j
      exact ⟨getD_nonneg spots hsp j, le_refl _⟩
    · intro a ha
      simp [runAssignments] at ha
    · intro t
      simp [runAssignments, countTA]
  | cons nGroup rest ih =>
    intro iStart spots results finalSpots hsp h
    rw [runTiers] at h
    rcases hts : tierStep solver numClasses sPrefs cPrefs availFull iStart nGroup spots
      with _ | ⟨spots2, st, asg⟩
    · rw [hts] at h
      exact absurd h Except.noConfusion
    rw [hts] at h
    simp only [] at h
    rcases hrec : runTiers solver numClasses sPrefs cPrefs availFull rest
        (iStart + nGroup) spots2 with e | ⟨results2, final2⟩
    · rw [hrec] at h
      exact absurd h Except.noConfusion
    rw [hrec] at h
    simp only [Except.ok.injEq, Prod.mk.injEq] at h
    obtain ⟨h1, h2⟩ := h
    subst h1
    subst h2
    obtain ⟨hl1, hc1, hb1, hm1, ht1⟩ := tierStep_spec solver numClasses sPrefs cPrefs
      availFull iStart nGroup spots spots2 st asg hval hsp hts
    have hsp2 : ∀ s ∈ spots2, 0 ≤ s :=
      mem_nonneg_of_getD spots2 (fun j => (hb1 j).1)
    obtain ⟨hl2, hc2, hb2, hm2, ht2⟩ := ih (iStart + nGroup) spots2 results2 final2 hsp2 hrec
    refine ⟨hl2.trans hl1, ?_, ?_, ?_, ?_⟩
    · intro j
      rw [runAssignments_cons, countCourse, List.countP_append, ← countCourse,
        ← countCourse]
      push_cast
      rw [hc1 j, hc2 j]
      ring
    · intro j
      exact ⟨(hb2 j).1, le_trans (hb2 j).2 (hb1 j).2⟩
    · intro a ha
      rw [runAssignments_cons, List.mem_append] at ha
      rcases ha with ha | ha
      · exact (hm1 a ha).1
      · exact le_trans (Nat.le_add_right iStart nGroup) (hm2 a ha)
    · intro t
      rw [runAssignments_cons, countTA, List.countP_append, ← countTA, ← countTA]
      push_cast
      rcases Nat.lt_or_ge t (iStart + nGroup) with htless | htge
      · have hz2 : countTA t (runAssignments results2) = 0 := by
          rw [countTA, List.countP_eq_zero]
          intro a ha
          have := hm2 a ha
          simp only [beq_iff_eq]
          omega
        rw [hz2]
        rcases Nat.lt_or_ge t iStart with ht0 | ht0
        · have hz1 : countTA t asg = 0 := by
            rw [countTA, List.countP_eq_zero]
            intro a ha
            have := (hm1 a ha).1
            simp only [beq_iff_eq]
            omega
          rw [hz1]
          simp
        · have hteq : iStart + (t - iStart) = t := by omega
          have := ht1 (t - iStart) (by omega)
          rw [hteq] at this
          push_cast
          omega
      · have hz1 : countTA t asg = 0 := by
          rw [countTA, List.countP_eq_zero]
          intro a ha
          have := (hm1 a ha).2
          simp only [beq_iff_eq]
          omega
        rw [hz1]
        have := ht2 t
        push_cast
        omega

lemma runTiers_length (solver : Solver) (numClasses : Nat)
    (sPrefs cPrefs availFull : List Int) :
    ∀ (tiers : List Nat) (iStart : Nat) (spots : List Int)
      (results : List TierResult) (finalSpots : List Int),
    runTiers solver numClasses sPrefs cPrefs availFull tiers iStart spots =
      .ok (results, finalSpots) →
    results.length = tiers.length := by
  intro tiers
  induction tiers with
  | nil =>
    intro iStart spots results finalSpots h
    rw [runTiers] at h
    simp only [Except.ok.injEq, Prod.mk.injEq] at h
    rw [← h.1]
    rfl
  | cons nGroup rest ih =>
    intro iStart spots results finalSpots h
    rw [runTiers] at h
    rcases hts : tierStep solver numClasses sPrefs cPrefs availFull iStart nGroup spots
      with _ | ⟨spots2, st, asg⟩
    · rw [hts] at h
      exact absurd h Except.noConfusion
    rw [hts] at h
    simp only [] at h
    rcases hrec : runTiers solver numClasses sPrefs cPrefs availFull rest
        (iStart + nGroup) spots2 with e | ⟨results2, final2⟩
    · rw [hrec] at h
      exact absurd h Except.noConfusion
    rw [hrec] at h
    simp only [Except.ok.injEq, Prod.mk.injEq] at h
    rw [← h.1, List.length_cons, ih (iStart + nGroup) spots2 results2 final2 hrec]
    rfl

lemma tier_index_lt (i j n m : Nat) (hi : i < n) (hj : j < m) (hnm : n ≤ m) :
    i * n + j < n * m := by
  have h1 : i * n ≤ i * m := Nat.mul_le_mul_left i hnm
  have h2 : i * m + m ≤ n * m := by
    have h3 : i + 1 ≤ n := hi
    calc i * m + m = (i + 1) * m := by ring
    _ ≤ n * m := Nat.mul_le_mul_right m h3
  omega

lemma buildTierArcs_some (nGroup numClasses : Nat) (sP cP : List Int)
    (h1 : nGroup ≤ numClasses) (h2 : nGroup * numClasses ≤ sP.length)
    (h3 : nGroup * numClasses ≤ cP.length) :
    ∃ arcs, buildTierArcs nGroup numClasses sP cP = some arcs := by
  rw [buildTierArcs, if_pos]
  · exact ⟨_, rfl⟩
  · intro i hi j hj
    have := tier_index_lt i j nGroup numClasses hi hj h1
    omega

lemma tierStep_some (solver : Solver) (numClasses : Nat)
    (sPrefs cPrefs availFull : List Int) (iStart nGroup : Nat) (spots : List Int)
    (h1 : nGroup ≤ numClasses)
    (h2 : (iStart + nGroup) * numClasses ≤ sPrefs.length)
    (h3 : (iStart + nGroup) * numClasses ≤ cPrefs.length)
    (h4 : iStart + nGroup ≤ availFull.length)
    (h5 : numClasses ≤ spots.length) :
    ∃ out, tierStep solver numClasses sPrefs cPrefs availFull iStart nGroup spots =
      some out := by
  have hadd : (iStart + nGroup) * numClasses =
      iStart * numClasses + nGroup * numClasses := by ring
  have hslen : nGroup * numClasses ≤
      (pySlice sPrefs (iStart * numClasses) ((iStart + nGroup) * numClasses)).length := by
    rw [pySlice_length]
    omega
  have hclen : nGroup * numClasses ≤
      (pySlice cPrefs (iStart * numClasses) ((iStart + nGroup) * numClasses)).length := by
    rw [pySlice_length]
    omega
  obtain ⟨arcs, harcs⟩ := buildTierArcs_some nGroup numClasses _ _ h1 hslen hclen
  have havl : nGroup ≤ (pySlice availFull iStart (iStart + nGroup)).length := by
    rw [pySlice_length]
    omega
  rw [tierStep, harcs]
  simp only []
  rw [if_pos (And.intro havl h5)]
  by_cases hst : (solver arcs (pySlice availFull iStart (iStart + nGroup) ++
      (spots.take numClasses).map (fun s => -s))).status = SolveStatus.optimal
  · rw [if_pos hst]
    exact ⟨_, rfl⟩
  · rw [if_neg hst]
    exact ⟨_, rfl⟩

lemma runTiers_ok (solver : Solver) (numClasses : Nat)
    (sPrefs cPrefs availFull : List Int) :
    ∀ (tiers : List Nat) (iStart : Nat) (spots : List Int),
    (∀ g ∈ tiers, g ≤ numClasses) →
    iStart + tiers.sum ≤ availFull.length →
    (iStart + tiers.sum) * numClasses ≤ sPrefs.length →
    (iStart + tiers.sum) * numClasses ≤ cPrefs.length →
    numClasses ≤ spots.length →
    ∃ out, runTiers solver numClasses sPrefs cPrefs availFull tiers iStart spots =
      .ok out := by
  intro tiers
  induction tiers with
  | nil =>
    intro iStart spots _ _ _ _ _
    exact ⟨([], spots), rfl⟩
  | cons nGroup rest ih =>
    intro iStart spots hmem hsum hsp hcp hspl
    have hsum2 : (nGroup :: rest).sum = nGroup + rest.sum := by
      rw [List.sum_cons]
    have hmul : (iStart + nGroup + rest.sum) * numClasses =
        (iStart + (nGroup :: rest).sum) * numClasses := by
      rw [hsum2]
      ring_nf
    have hmul2 : (iStart + nGroup) * numClasses ≤
        (iStart + (nGroup :: rest).sum) * numClasses := by
      apply Nat.mul_le_mul_right
      omega
    obtain ⟨⟨spots2, st, asg⟩, hts⟩ := tierStep_some solver numClasses sPrefs cPrefs
      availFull iStart nGroup spots (hmem nGroup (List.mem_cons_self nGroup rest))
      (le_trans hmul2 hsp) (le_trans hmul2 hcp) (by omega) hspl
    have hlen : spots2.length = spots.length :=
      tierStep_length solver numClasses sPrefs cPrefs availFull iStart nGroup spots
        (spots2, st, asg) hts
    obtain ⟨out2, hrec⟩ := ih (iStart + nGroup) spots2
      (fun g hg => hmem g (List.mem_cons_of_mem nGroup hg))
      (by omega) (by rw [hmul]; exact hsp) (by rw [hmul]; exact hcp)
      (by rw [hlen]; exact hspl)
    refine ⟨(⟨st, asg⟩ :: out2.1, out2.2), ?_⟩
    rw [runTiers, hts]
    simp only []
    rw [hrec]

lemma solverInf_valid : SolverValid solverInf := by
  intro arcs supplies h
  exact absurd h (by simp [solverInf])

lemma oracleW_valid : SolverValid oracleW := by
  intro arcs supplies h
  by_cases hc : arcs = [⟨0, 1, 1, 0⟩] ∧ supplies = [1, -1]
  · obtain ⟨hc1, hc2⟩ := hc
    subst hc1
    subst hc2
    simp only [oracleW, if_pos (And.intro rfl rfl)]
    unfold ValidResult
    decide
  · simp only [oracleW, if_neg hc] at h
    exact absurd h (by simp)

lemma oracleC2_valid : SolverValid oracleC2 := by
  intro arcs supplies h
  by_cases hc : arcs = [⟨0, 4, 1, 0⟩, ⟨1, 2, 1, 0⟩] ∧
      supplies = [0, 1, -1, -1, -1]
  · obtain ⟨hc1, hc2⟩ := hc
    subst hc1
    subst hc2
    simp only [oracleC2, if_pos (And.intro rfl rfl)]
    unfold ValidResult
    decide
  · simp only [oracleC2, if_neg hc] at h
    exact absurd h (by simp)

lemma solverEmptyModel_spec : SpecSolverOnEmpty solverEmptyModel := by
  intro supplies
  constructor
  · rintro ⟨s, hs, hneg⟩
    have hall : supplies.all (fun s => decide (0 ≤ s)) = false := by
      rw [List.all_eq_false]
      exact ⟨s, hs, by simp; omega⟩
    simp only [solverEmptyModel, if_pos rfl]
    rw [hall]
    rfl
  · intro hpos
    have hall : supplies.all (fun s => decide (0 ≤ s)) = true := by
      rw [List.all_eq_true]
      intro s hs
      simp
      exact hpos s hs
    simp only [solverEmptyModel, if_pos rfl]
    rw [hall]
    rfl

lemma sentinel_not_int : ¬ ∃ n : ℤ, ((2147483647 : ℚ) / 2 - 1) = (n : ℚ) := by
  rintro ⟨n, hn⟩
  have h2 : (2147483645 : ℚ) = ((2 * n : ℤ) : ℚ) := by
    push_cast
    linear_combination 2 * hn
  have h3 : (2147483645 : ℤ) = 2 * n := by exact_mod_cast h2
  omega

/-- C1: the claim states that the unit cost of arc (i, j) is read from the
preference slices at position i * numCourses + j.  The code instead reads at
i * nGroup + j (line 97).  Concretely, with a tier of 2 TAs over 3 classes and
both preference slices equal to [0, 0, 0, 500, 0, 0] (so that, under the
documented layout of line 49, pairing (TA 1, class 0) has combined cost 1000
and pairing (TA 1, class 1) has combined cost 0), the built network contains
an arc for (TA 1, class 0) with unit cost 0 and no arc for (TA 1, class 1):
the misread offsets produce both a wrongly included and a wrongly excluded
pair. -/
theorem c1_arc_cost_misindexed :
    buildTierArcs 2 3 [0, 0, 0, 500, 0, 0] [0, 0, 0, 500, 0, 0] =
      some [⟨0, 2, 1, 0⟩, ⟨0, 3, 1, 0⟩, ⟨0, 4, 1, 0⟩, ⟨1, 2, 1, 0⟩, ⟨1, 4, 1, 0⟩] ∧
    List.getD [0, 0, 0, 500, 0, 0] (1 * 3 + 0) (0 : Int) +
      List.getD [0, 0, 0, 500, 0, 0] (1 * 3 + 0) (0 : Int) = 1000 ∧
    List.getD [0, 0, 0, 500, 0, 0] (1 * 3 + 1) (0 : Int) +
      List.getD [0, 0, 0, 500, 0, 0] (1 * 3 + 1) (0 : Int) = 0 := by
  refine ⟨by decide, by decide, by decide⟩

/-- C2: the claim states that no assignment is ever produced for a pair whose
combined preference cost (TA cost for the course plus course cost for the TA)
reaches 1000.  In cfgC2 the pair (TA 1, course 0) has combined cost
2147483644 under the documented matrix layout (both sides carry the sentinel),
yet the run, with the contract-honouring solver oracleC2 (see oracleC2_valid),
records exactly the assignment of TA 1 to course 0, because line 97 reads the
cost of that pair at the misindexed offset 1 * nGroup + 0 where a zero cost of
a different pair is stored. -/
theorem c2_unwilling_pair_assigned :
    solveRun oracleC2 cfgC2 =
      .ok ([⟨SolveStatus.optimal, [⟨1, 0, 0⟩]⟩, ⟨SolveStatus.infeasible, []⟩,
        ⟨SolveStatus.infeasible, []⟩], [0, 1, 1]) ∧
    cfgC2.studentPrefs.getD (1 * cfgC2.numClasses + 0) 0 +
      cfgC2.coursePrefs.getD (1 * cfgC2.numClasses + 0) 0 = 2147483644 ∧
    (1000 : Int) ≤ 2147483644 := by
  refine ⟨by rfl, by rfl, by decide⟩

/-- C3: over a whole run with a contract-honouring solver and non-negative
configured slot counts, every course receives at most its original number of
slots in total (summed over all tiers), and the shared slot pool never ends
negative. -/
theorem c3_course_slots_conserved (solver : Solver) (cfg : Config)
    (results : List TierResult) (finalSpots : List Int)
    (hval : SolverValid solver)
    (hspots : ∀ s ∈ cfg.spots, 0 ≤ s)
    (hrun : solveRun solver cfg = .ok (results, finalSpots)) :
    ∀ j, (countCourse j (runAssignments results) : Int) ≤ cfg.spots.getD j 0 ∧
      0 ≤ finalSpots.getD j 0 := by
  obtain ⟨_, hc, hb, _, _⟩ := runTiers_spec solver cfg.numClasses cfg.studentPrefs
    cfg.coursePrefs cfg.avail hval [cfg.numPhDs, cfg.numMSCs, cfg.numOther] 0
    cfg.spots results finalSpots hspots hrun
  intro j
  have h1 := hc j
  have h2 := (hb j).1
  exact ⟨by omega, h2⟩

theorem c3_witness :
    (countCourse 0 (runAssignments
      [⟨SolveStatus.optimal, [⟨0, 0, 0⟩]⟩, ⟨SolveStatus.infeasible, []⟩,
        ⟨SolveStatus.infeasible, []⟩]) : Int) ≤ cfgW.spots.getD 0 0 ∧
      0 ≤ List.getD [(0 : Int)] 0 0 :=
  c3_course_slots_conserved oracleW cfgW
    [⟨SolveStatus.optimal, [⟨0, 0, 0⟩]⟩, ⟨SolveStatus.infeasible, []⟩,
      ⟨SolveStatus.infeasible, []⟩] [0] oracleW_valid
    (by intro s hs; simp [cfgW] at hs; omega) (by rfl) 0

/-- C4: over a whole run with a contract-honouring solver and a well-formed
configuration (non-negative availabilities and slot counts), every TA, under
its global index, receives at most its declared availability of assignments. -/
theorem c4_ta_within_availability (solver : Solver) (cfg : Config)
    (results : List TierResult) (finalSpots : List Int)
    (hval : SolverValid solver)
    (havail : ∀ x ∈ cfg.avail, 0 ≤ x)
    (hspots : ∀ s ∈ cfg.spots, 0 ≤ s)
    (hrun : solveRun solver cfg = .ok (results, finalSpots)) :
    ∀ t, (countTA t (runAssignments results) : Int) ≤ cfg.avail.getD t 0 := by
  obtain ⟨_, _, _, _, ht⟩ := runTiers_spec solver cfg.numClasses cfg.studentPrefs
    cfg.coursePrefs cfg.avail hval [cfg.numPhDs, cfg.numMSCs, cfg.numOther] 0
    cfg.spots results finalSpots hspots hrun
  intro t
  have h1 := ht t
  have h2 : 0 ≤ cfg.avail.getD t 0 := getD_nonneg cfg.avail havail t
  omega

theorem c4_witness :
    (countTA 0 (runAssignments
      [⟨SolveStatus.optimal, [⟨0, 0, 0⟩]⟩, ⟨SolveStatus.infeasible, []⟩,
        ⟨SolveStatus.infeasible, []⟩]) : Int) ≤ cfgW.avail.getD 0 0 :=
  c4_ta_within_availability oracleW cfgW
    [⟨SolveStatus.optimal, [⟨0, 0, 0⟩]⟩, ⟨SolveStatus.infeasible, []⟩,
      ⟨SolveStatus.infeasible, []⟩] [0] oracleW_valid
    (by intro x hx; simp [cfgW] at hx; omega)
    (by intro s hs; simp [cfgW] at hs; omega) (by rfl) 0

/-- C5 counterexample: the claim states that a configuration with a negative
availability aborts with a ConfigurationError before any tier is built and no
tier produces an assignment.  At cfgC5 (second availability entry -1, all
sizes consistent) the run performs no validation: it completes without error
and both one-TA tiers produce an assignment. -/
theorem c5_counterexample :
    solveRun oracleOne cfgC5 =
      .ok ([⟨SolveStatus.optimal, [⟨0, 0, 0⟩]⟩, ⟨SolveStatus.optimal, [⟨1, 0, 0⟩]⟩,
        ⟨SolveStatus.infeasible, []⟩], [0]) ∧
    cfgC5.avail.getD 1 0 = -1 := by
  refine ⟨by rfl, by rfl⟩

/-- C5 as amended: the source performs no input validation at all.  Whether a
run completes is decided purely by the size conditions of WellSized (which
keep every list access in range); the signs of availabilities and slot counts
are irrelevant, and no ConfigurationError exists.  In particular every
WellSized configuration, however negative its capacities, runs to the end
with a result for all three tiers. -/
theorem c5_no_validation (solver : Solver) (cfg : Config) (hw : WellSized cfg) :
    ∃ out, solveRun solver cfg = .ok out := by
  obtain ⟨h1, h2, h3, h4, h5, h6, h7⟩ := hw
  have hsum : ([cfg.numPhDs, cfg.numMSCs, cfg.numOther] : List Nat).sum =
      totTAs cfg := by
    simp [totTAs]
    ring
  apply runTiers_ok solver cfg.numClasses cfg.studentPrefs cfg.coursePrefs
    cfg.avail [cfg.numPhDs, cfg.numMSCs, cfg.numOther] 0 cfg.spots
  · intro g hg
    simp only [List.mem_cons, List.not_mem_nil, or_false] at hg
    rcases hg with rfl | rfl | rfl
    · exact h1
    · exact h2
    · exact h3
  · rw [hsum, h6]
    omega
  · rw [hsum, h4, Nat.zero_add]
  · rw [hsum, h5, Nat.zero_add]
  · exact h7

theorem c5_witness : ∃ out, solveRun solverInf cfgC5 = .ok out :=
  c5_no_validation solverInf cfgC5 (by constructor <;> simp [cfgC5, totTAs])

/-- C6: for a tier whose built network has no arc at all, under the
spec-modelled status behaviour of the external solver on arc-free networks
(SpecSolverOnEmpty): when some course still has a positive slot count the tier
reports Infeasible and yields no assignment with the slot pool untouched, and
when every remaining slot count is zero the solver instead answers Optimal
with zero cost and zero flow and the tier again yields no assignment. -/
theorem c6_empty_network_status (solver : Solver) (numClasses : Nat)
    (sPrefs cPrefs availFull : List Int) (iStart nGroup : Nat) (spots : List Int)
    (hspec : SpecSolverOnEmpty solver)
    (hempty : buildTierArcs nGroup numClasses
      (pySlice sPrefs (iStart * numClasses) ((iStart + nGroup) * numClasses))
      (pySlice cPrefs (iStart * numClasses) ((iStart + nGroup) * numClasses)) =
      some [])
    (havlen : nGroup ≤ (pySlice availFull iStart (iStart + nGroup)).length)
    (hsplen : numClasses ≤ spots.length)
    (havpos : ∀ x ∈ pySlice availFull iStart (iStart + nGroup), 0 ≤ x) :
    ((∃ s ∈ spots.take numClasses, 0 < s) →
      tierStep solver numClasses sPrefs cPrefs availFull iStart nGroup spots =
        some (spots, SolveStatus.infeasible, [])) ∧
    ((∀ s ∈ spots.take numClasses, s = 0) →
      solver [] (pySlice availFull iStart (iStart + nGroup) ++
        (spots.take numClasses).map (fun s => -s)) =
        ⟨SolveStatus.optimal, 0, []⟩ ∧
      tierStep solver numClasses sPrefs cPrefs availFull iStart nGroup spots =
        some (spots, SolveStatus.optimal, [])) := by
  constructor
  · rintro ⟨s, hs, hspos⟩
    have hneg : ∃ x ∈ pySlice availFull iStart (iStart + nGroup) ++
        (spots.take numClasses).map (fun y => -y), x < 0 := by
      refine ⟨-s, ?_, by omega⟩
      apply List.mem_append_right
      exact List.mem_map.2 ⟨s, hs, rfl⟩
    have hstat := (hspec (pySlice availFull iStart (iStart + nGroup) ++
      (spots.take numClasses).map (fun y => -y))).1 hneg
    rw [tierStep, hempty]
    simp only []
    rw [if_pos (And.intro havlen hsplen), if_neg (by rw [hstat]; simp), hstat]
  · intro hzero
    have hpos : ∀ x ∈ pySlice availFull iStart (iStart + nGroup) ++
        (spots.take numClasses).map (fun y => -y), 0 ≤ x := by
      intro x hx
      rcases List.mem_append.1 hx with hx | hx
      · exact havpos x hx
      · obtain ⟨y, hy, rfl⟩ := List.mem_map.1 hx
        rw [hzero y hy]
        omega
    have hsolve := (hspec (pySlice availFull iStart (iStart + nGroup) ++
      (spots.take numClasses).map (fun y => -y))).2 hpos
    refine ⟨hsolve, ?_⟩
    rw [tierStep, hempty]
    simp only []
    rw [if_pos (And.intro havlen hsplen), hsolve]
    simp [extractArcs]

theorem c6_witness :
    tierStep solverEmptyModel 1 [600] [600] [1] 0 1 [1] =
      some ([1], SolveStatus.infeasible, []) ∧
    tierStep solverEmptyModel 1 [600] [600] [1] 0 1 [0] =
      some ([0], SolveStatus.optimal, []) := by
  constructor
  · exact (c6_empty_network_status solverEmptyModel 1 [600] [600] [1] 0 1 [1]
      solverEmptyModel_spec (by decide) (by decide) (by decide)
      (by intro x hx; simp [pySlice] at hx; omega)).1
      ⟨1, by decide, by decide⟩
  · exact ((c6_empty_network_status solverEmptyModel 1 [600] [600] [1] 0 1 [0]
      solverEmptyModel_spec (by decide) (by decide) (by decide)
      (by intro x hx; simp [pySlice] at hx; omega)).2
      (by intro s hs; simp at hs; omega)).2

/-- C7: a tier whose solver status is anything other than Optimal performs no
extraction (the slot pool is returned unchanged and the tier records no
assignment), and the sequencer nevertheless still processes every tier: any
completed run contains exactly one result per tier, three in total. -/
theorem c7_failed_tier_carries_forward :
    (∀ (solver : Solver) (numClasses : Nat) (sPrefs cPrefs availFull : List Int)
      (iStart nGroup : Nat) (spots spots2 : List Int) (st : SolveStatus)
      (asg : List Assignment),
      tierStep solver numClasses sPrefs cPrefs availFull iStart nGroup spots =
        some (spots2, st, asg) →
      st ≠ SolveStatus.optimal → spots2 = spots ∧ asg = []) ∧
    (∀ (solver : Solver) (cfg : Config) (results : List TierResult)
      (finalSpots : List Int),
      solveRun solver cfg = .ok (results, finalSpots) → results.length = 3) := by
  constructor
  · intro solver numClasses sPrefs cPrefs availFull iStart nGroup spots spots2 st
      asg h hst
    exact tierStep_nonopt solver numClasses sPrefs cPrefs availFull iStart nGroup
      spots spots2 st asg h hst
  · intro solver cfg results finalSpots h
    exact runTiers_length solver cfg.numClasses cfg.studentPrefs cfg.coursePrefs
      cfg.avail [cfg.numPhDs, cfg.numMSCs, cfg.numOther] 0 cfg.spots results
      finalSpots h

theorem c7_witness :
    (([1] : List Int) = [1] ∧ ([] : List Assignment) = []) ∧
    ([⟨SolveStatus.infeasible, []⟩, ⟨SolveStatus.infeasible, []⟩,
      ⟨SolveStatus.infeasible, []⟩] : List TierResult).length = 3 := by
  constructor
  · exact c7_failed_tier_carries_forward.1 solverInf 1 [0] [0] [1] 0 1 [1] [1]
      SolveStatus.infeasible [] (by rfl) (by decide)
  · exact c7_failed_tier_carries_forward.2 solverInf cfgW
      [⟨SolveStatus.infeasible, []⟩, ⟨SolveStatus.infeasible, []⟩,
        ⟨SolveStatus.infeasible, []⟩] [1] (by rfl)

/-- C8: feasibility of a pair is decided by the strict comparison of line 98:
a pair whose total cost, as read by the construction, is exactly 999 gets an
arc carrying that cost, and a pair whose total cost is exactly 1000 gets no
arc at all. -/
theorem c8_threshold_boundary (nGroup numClasses : Nat) (sPrefs cPrefs : List Int)
    (i j : Nat) (s c : Int) (arcs : List Arc)
    (hi : i < nGroup) (hj : j < numClasses)
    (hs : sPrefs.getD (i * nGroup + j) 0 = s)
    (hc : cPrefs.getD (i * nGroup + j) 0 = c)
    (harcs : buildTierArcs nGroup numClasses sPrefs cPrefs = some arcs) :
    (s + c = 999 → (⟨i, j + nGroup, 1, s + c⟩ : Arc) ∈ arcs) ∧
    (s + c = 1000 → ∀ a ∈ arcs, a.tail = i → a.head = j + nGroup → False) := by
  constructor
  · intro h999
    rw [buildTierArcs_mem harcs]
    exact ⟨i, j, hi, hj, by rw [hs, hc]; omega, by rw [hs, hc]⟩
  · intro h1000 a ha htail hhead
    obtain ⟨i2, j2, hi2, hj2, hcost, rfl⟩ := (buildTierArcs_mem harcs a).1 ha
    simp only [] at htail hhead
    have hij : i2 = i ∧ j2 = j := by omega
    rw [hij.1, hij.2, hs, hc] at hcost
    omega

theorem c8_witness :
    (⟨0, 1, 1, 999⟩ : Arc) ∈ [(⟨0, 1, 1, (999 : Int)⟩ : Arc)] ∧
    (⟨0, 2, 1, 1000⟩ : Arc) ∉ [(⟨0, 1, 1, (999 : Int)⟩ : Arc)] := by
  constructor
  · exact (c8_threshold_boundary 1 2 [999, 500] [0, 500] 0 0 999 0
      [⟨0, 1, 1, 999⟩] (by decide) (by decide) (by decide) (by decide)
      (by decide)).1 (by decide)
  · intro hmem
    exact (c8_threshold_boundary 1 2 [999, 500] [0, 500] 0 1 500 500
      [⟨0, 1, 1, 999⟩] (by decide) (by decide) (by decide) (by decide)
      (by decide)).2 (by decide) ⟨0, 2, 1, 1000⟩ hmem (by decide) (by decide)

/-- C9 counterexample: the claim states the unwilling rank maps to a
non-negative integer sentinel at least half the representable range of a
32-bit signed integer.  The actual table entry is
np.iinfo(np.int32).max / 2 - 1 = 1073741822.5 under Python true division: it
is strictly below half of the int32 maximum 2147483647 (hence below every
reading of half the representable range) and it is not an integer at all. -/
theorem c9_counterexample :
    costs.getD 4 0 < (2147483647 : ℚ) / 2 ∧
    ¬ ∃ n : ℤ, costs.getD 4 0 = (n : ℚ) := by
  have hval : costs.getD 4 0 = (2147483647 : ℚ) / 2 - 1 := rfl
  constructor
  · rw [hval]
    norm_num
  · rw [hval]
    exact sentinel_not_int

/-- C9 as amended: the lookup maps the four finite ranks to the non-negative
integer costs 0, 25, 50, 100, strictly increasing as preference decreases,
and maps the unwilling rank to the non-integer sentinel 2147483647 / 2 - 1 =
1073741822.5, which is strictly below half the int32 maximum (by exactly one)
but still at least the infeasibility threshold 1000 and small enough that the
sum of two sentinels stays below the int32 maximum. -/
theorem c9_cost_table_amended :
    (∀ c ∈ costs, 0 ≤ c) ∧
    List.Chain' (· < ·) costs ∧
    costs.getD 4 0 = (2147483647 : ℚ) / 2 - 1 ∧
    (1000 : ℚ) ≤ costs.getD 4 0 ∧
    costs.getD 4 0 + costs.getD 4 0 < 2147483647 ∧
    ¬ ∃ n : ℤ, costs.getD 4 0 = (n : ℚ) := by
  have hval : costs.getD 4 0 = (2147483647 : ℚ) / 2 - 1 := rfl
  refine ⟨?_, ?_, hval, ?_, ?_, ?_⟩
  · intro c hc
    simp only [costs, List.mem_cons, List.not_mem_nil, or_false] at hc
    rcases hc with rfl | rfl | rfl | rfl | rfl <;> norm_num
  · simp only [costs, List.chain'_cons, List.chain'_singleton, and_true]
    norm_num
  · rw [hval]
    norm_num
  · rw [hval]
    norm_num
  · rw [hval]
    exact sentinel_not_int

/-- C10: the preference lookup index of line 97 uses the tier size as stride;
for the configuration cfgC10, whose first tier (2 TAs) is larger than its
single class, the visited index 1 * 2 + 0 = 2 reaches past the tier slice of
length nGroup * numClasses = 2, so the run aborts with an IndexError whatever
the solver does; and for every tier with nGroup at most numClasses and
preference slices of exactly nGroup * numClasses entries, every visited index
stays in range and the network is built. -/
theorem c10_stride_bound :
    (∀ solver : Solver, solveRun solver cfgC10 = .error .indexError) ∧
    (∀ (nGroup numClasses : Nat) (sP cP : List Int),
      nGroup ≤ numClasses →
      sP.length = nGroup * numClasses → cP.length = nGroup * numClasses →
      ∃ arcs, buildTierArcs nGroup numClasses sP cP = some arcs) := by
  constructor
  · intro solver
    rfl
  · intro nGroup numClasses sP cP h1 h2 h3
    exact buildTierArcs_some nGroup numClasses sP cP h1 (le_of_eq h2.symm)
      (le_of_eq h3.symm)

theorem c10_witness : ∃ arcs, buildTierArcs 1 2 [5, 7] [1, 2] = some arcs :=
  c10_stride_bound.2 1 2 [5, 7] [1, 2] (by decide) (by decide) (by decide)
